import Mathlib

/-!
Verification development for `license_summary.py` (DynamicsLicenseSummaryTool).

The Python program reads a semi-structured license report, scans it with a
hand-rolled row state machine (`extract_roles`, lines 60-211), matches the
discovered per-user roles against a role catalog, aggregates users by their
exact matched role set, and ranks the resulting combinations.

This file gives a shallow embedding of that code and proves/refutes the
frozen specification claims about it.  Every definition mirrors a concrete
place in `src/license_summary.py`; the line numbers are cited in doc
comments.
-/

namespace LicenseSummary

/-- A cell of the spreadsheet as seen by the Python code after
`openpyxl` + `pandas` conversion: either a Python `str`, or any other
value (None/NaN/number).  A non-string cell only ever matters through
`isinstance(x, str)` (false) and `str(x)` (its textual representation,
e.g. `"nan"` for a missing cell), so we carry that representation. -/
inductive Cell where
  | str (s : String)
  | other (repr : String)
  deriving DecidableEq, Repr

/-- A raw row: ordered cells.  `pandas` pads short rows with NaN, which
`str()` renders as `"nan"`; `cellAt` models `row.iloc[j]` with that padding. -/
abbrev Row := List Cell

/-- `row.iloc[j]` (missing positions behave as NaN cells). -/
def cellAt (r : Row) (j : Nat) : Cell :=
  List.getD r j (Cell.other "nan")

/-- `isinstance(x, str)` together with the string payload. -/
def isStr : Cell → Option String
  | Cell.str s => some s
  | Cell.other _ => none

/-- Python `str(x)` on a cell value. -/
def pyStr : Cell → String
  | Cell.str s => s
  | Cell.other r => r

/-- Python `str.strip()`: drop leading and trailing whitespace. -/
def pyStrip (s : String) : String :=
  String.mk (((s.data.dropWhile Char.isWhitespace).reverse.dropWhile
    Char.isWhitespace).reverse)

/-- Splitting a character list at every `','` (Python `str.split(',')`):
the empty input yields one empty piece, exactly as in Python. -/
def splitCommaChars : List Char → List (List Char)
  | [] => [[]]
  | c :: rest =>
    match splitCommaChars rest with
    | [] => [[]]
    | g :: gs => if c = ',' then [] :: g :: gs else (c :: g) :: gs

/-- Python `s.split(',')`. -/
def pySplitComma (s : String) : List String :=
  (splitCommaChars s.data).map String.mk

/-- Python's string comparison: lexicographic on code points. -/
def charListLe : List Char → List Char → Bool
  | [], _ => true
  | _ :: _, [] => false
  | a :: as, b :: bs =>
    if a.toNat < b.toNat then true
    else if b.toNat < a.toNat then false
    else charListLe as bs

/-- `a <= b` on Python strings. -/
def pyLe (a b : String) : Bool :=
  charListLe a.data b.data

/-- License requirement flags of one role (columns B-F of the roles file,
`load_roles_from_file`, lines 46-52). -/
structure Licenses where
  finance : Bool
  scm : Bool
  commerce : Bool
  project : Bool
  hr : Bool
  deriving DecidableEq, Repr

/-- All-false flags: the initial `combined_licenses` dict (lines 168-174). -/
def noLicenses : Licenses := ⟨false, false, false, false, false⟩

/-- The role catalog `target_roles`: role name → flags, insertion ordered. -/
abbrev Catalog := List (String × Licenses)

/-- Python `dict` lookup (`d[k]` / `d.get(k)` / `k in d`): first (unique)
matching key. -/
def dictGet {α : Type} : List (String × α) → String → Option α
  | [], _ => none
  | (k, v) :: rest, key => if k = key then some v else dictGet rest key

/-- Python `d[k] = v`: overwrite in place if the key exists, else append
(dict insertion order). -/
def dictInsert {α : Type} : List (String × α) → String → α → List (String × α)
  | [], key, val => [(key, val)]
  | (k, v) :: rest, key, val =>
    if k = key then (key, val) :: rest else (k, v) :: dictInsert rest key val

/-- `role in target_roles` (line 145). -/
def roleInCatalog (cat : Catalog) (r : String) : Bool :=
  (dictGet cat r).isSome

/-- `target_roles[role]` (line 178).  Roles reaching this call were filtered
by `roleInCatalog`, so the default is never used on pipeline inputs. -/
def catalogFlags (cat : Catalog) (r : String) : Licenses :=
  (dictGet cat r).getD noLicenses

/-- `user_roles`: alias → set of matched roles.  A Python `set` is modeled
as a duplicate-free list in insertion order; every downstream use
(`sorted`, truthiness, union) is order-insensitive. -/
abbrev UserRoles := List (String × List String)

/-- `user_roles[current_user] = set()` guarded by
`if current_user not in user_roles` (lines 119-120). -/
def registerUser (ur : UserRoles) (u : String) : UserRoles :=
  if (dictGet ur u).isSome then ur else ur ++ [(u, [])]

/-- `set.update`: add each new element unless already present. -/
def setUnion (old new : List String) : List String :=
  new.foldl (fun acc r => if r ∈ acc then acc else acc ++ [r]) old

/-- `user_roles[current_user].update(matching_roles)` (line 148). -/
def updateRoles (ur : UserRoles) (u : String) (newRoles : List String) : UserRoles :=
  ur.map (fun e => if e.1 = u then (e.1, setUnion e.2 newRoles) else e)

/-- `isinstance(row.iloc[3], str) and row.iloc[3].strip() == "Alias"`
(lines 113, 134). -/
def isAliasHeader (r : Row) : Bool :=
  match isStr (cellAt r 3) with
  | some s => pyStrip s == "Alias"
  | none => false

/-- `isinstance(row.iloc[5], str) and row.iloc[5].strip() == "Security Role"`
(line 127). -/
def isSecurityRoleHeader (r : Row) : Bool :=
  match isStr (cellAt r 5) with
  | some s => pyStrip s == "Security Role"
  | none => false

/-- Body of the role-collecting inner loop for one row (lines 138-148):
if column 5 is a string other than `"nan"`, split it on commas, trim the
pieces, keep those present in the catalog, and union them into the
current user's set. -/
def processRoleRow (cat : Catalog) (u : String) (r : Row) (ur : UserRoles) : UserRoles :=
  match isStr (cellAt r 5) with
  | some s =>
    if s ≠ "nan" then
      let roles := (pySplitComma s).map pyStrip
      let matching := roles.filter (fun x => roleInCatalog cat x)
      if matching ≠ [] then updateRoles ur u matching else ur
    else ur
  | none => ur

/-- The inner `while` loop (lines 131-149), started on the row list
`df.drop i` with absolute index `i`.  On meeting another "Alias" header it
backs up one row (`i -= 1`, line 135) and breaks; otherwise it processes
the row and advances. -/
def collectAux (cat : Catalog) (u : String) : List Row → Nat → UserRoles → Nat × UserRoles
  | [], i, ur => (i, ur)
  | r :: rest, i, ur =>
    if isAliasHeader r then (i - 1, ur)
    else collectAux cat u rest (i + 1) (processRoleRow cat u r ur)

/-- One iteration of the outer `while i < len(df)` loop (lines 109-150),
including the trailing `i += 1` of line 150.  When `i` is past the end the
loop has finished and the state is left unchanged. -/
def outerStep (cat : Catalog) (df : List Row) (s : Nat × UserRoles) : Nat × UserRoles :=
  match df[s.1]? with
  | none => s
  | some row =>
    if isAliasHeader row then
      match df[s.1 + 1]? with
      | none => (s.1 + 1, s.2)
      | some userRow =>
        let u := pyStr (cellAt userRow 3)
        let ur1 := registerUser s.2 u
        match df[s.1 + 2]? with
        | none => (s.1 + 3, ur1)
        | some r2 =>
          if isSecurityRoleHeader r2 then
            let p := collectAux cat u (df.drop (s.1 + 3)) (s.1 + 3) ur1
            (p.1 + 1, p.2)
          else (s.1 + 3, ur1)
    else (s.1 + 1, s.2)

/-- The full row scan (lines 104-150): run the outer loop from `i = 0`
with an empty `user_roles`.  Each iteration advances `i` by at least one
(see `outerStep_progress` / `scanUsers_consumes_all` below), so
`df.length` iterations are exactly enough to drain the loop; further
iterations would be the identity (`outerStep_fix`). -/
def scanUsers (cat : Catalog) (df : List Row) : UserRoles :=
  ((outerStep cat df)^[df.length] (0, ([] : List (String × List String)))).2

/-- Python `sorted` on a list of strings (line 161): the sorted
rearrangement (unique for a list of strings, since the order is total and
antisymmetric), realized by insertion sort. -/
def pysort (l : List String) : List String :=
  l.insertionSort (fun a b => pyLe a b = true)

/-- `' + '.join(sorted(roles))` (lines 161-162): the combination key. -/
def roleCombination (roles : List String) : String :=
  String.intercalate " + " (pysort roles)

/-- Field-wise `|=` of the license loop (lines 179-180). -/
def orLicenses (a b : Licenses) : Licenses :=
  ⟨a.finance || b.finance, a.scm || b.scm, a.commerce || b.commerce,
   a.project || b.project, a.hr || b.hr⟩

/-- `combined_licenses` accumulation over `role_list` (lines 168-180). -/
def combinedLicenses (cat : Catalog) (roleList : List String) : Licenses :=
  roleList.foldl (fun acc r => orLicenses acc (catalogFlags cat r)) noLicenses

/-- `combination_type` list building in the fixed category order
(lines 185-190). -/
def combinationTypeList (c : Licenses) : List String :=
  (if c.finance then ["Finance"] else []) ++
  (if c.scm then ["SCM"] else []) ++
  (if c.commerce then ["Commerce"] else []) ++
  (if c.project then ["Project"] else []) ++
  (if c.hr then ["HR"] else [])

/-- `', '.join(combination_type)` (line 192): the license signature key. -/
def licenseSignature (c : Licenses) : String :=
  String.intercalate ", " (combinationTypeList c)

/-- The three aggregation dictionaries (lines 97-101). -/
structure AggState where
  roleCounts : List (String × Nat)
  licenseReqs : List (String × Licenses)
  combinationTypes : List (String × List (String × Nat))

/-- Aggregation body for one `(user, roles)` entry (lines 158-195). -/
def aggUser (cat : Catalog) (st : AggState) (p : String × List String) : AggState :=
  if p.2 = [] then st
  else
    let key := roleCombination p.2
    let newCount := (dictGet st.roleCounts key).getD 0 + 1
    let rc := dictInsert st.roleCounts key newCount
    let combined := combinedLicenses cat (pysort p.2)
    let lr := dictInsert st.licenseReqs key combined
    let typeStr := licenseSignature combined
    let grp := (dictGet st.combinationTypes typeStr).getD []
    let ct := dictInsert st.combinationTypes typeStr (dictInsert grp key newCount)
    ⟨rc, lr, ct⟩

/-- The `for user, roles in user_roles.items()` aggregation loop
(lines 157-195), starting from the three empty dictionaries. -/
def aggregate (cat : Catalog) (users : List (String × List String)) : AggState :=
  users.foldl (aggUser cat) ⟨[], [], []⟩

/-- `sorted(role_counts.items(), key=lambda x: x[1], reverse=True)`
(line 198): the stable sort by count descending over the insertion-ordered
dict items (Python's sort is stable; the stable sort is a unique function,
realized here by insertion sort, which is stable). -/
def rankCombinations (l : List (String × Nat)) : List (String × Nat) :=
  l.insertionSort (fun a b => b.2 ≤ a.2)

/-- `extract_roles` data path (lines 60-204): empty catalog and empty
data frame both short-circuit to empty results (lines 68-70, 92-94);
otherwise scan, aggregate, and rank. -/
def extractRoles (cat : Catalog) (df : List Row) :
    List (String × Nat) × List (String × Licenses) × List (String × List (String × Nat)) :=
  if cat = [] then ([], [], [])
  else if df = [] then ([], [], [])
  else
    let st := aggregate cat (scanUsers cat df)
    (rankCombinations st.roleCounts, st.licenseReqs, st.combinationTypes)

/-! ### The code-point order on strings -/

theorem charListLe_total : ∀ (as bs : List Char),
    charListLe as bs = true ∨ charListLe bs as = true := by
  intro as
  induction as with
  | nil => intro bs; exact Or.inl rfl
  | cons a as ih =>
    intro bs
    cases bs with
    | nil => exact Or.inr rfl
    | cons b bs =>
      rcases Nat.lt_trichotomy a.toNat b.toNat with h | h | h
      · exact Or.inl (by simp [charListLe, h])
      · have h1 : ¬ a.toNat < b.toNat := by omega
        have h2 : ¬ b.toNat < a.toNat := by omega
        simpa [charListLe, h1, h2] using ih bs
      · exact Or.inr (by simp [charListLe, h])

theorem charListLe_trans : ∀ (as bs cs : List Char), charListLe as bs = true →
    charListLe bs cs = true → charListLe as cs = true := by
  intro as
  induction as with
  | nil => intro bs cs h1 h2; rfl
  | cons a as ih =>
    intro bs cs h1 h2
    cases bs with
    | nil => simp [charListLe] at h1
    | cons b bs =>
      cases cs with
      | nil => simp [charListLe] at h2
      | cons c cs =>
        simp only [charListLe] at h1 h2 ⊢
        rcases Nat.lt_trichotomy a.toNat b.toNat with hab | hab | hab
        · rcases Nat.lt_trichotomy b.toNat c.toNat with hbc | hbc | hbc
          · rw [if_pos (by omega)]
          · rw [if_pos (by omega)]
          · rw [if_neg (by omega), if_pos hbc] at h2
            exact absurd h2 (by simp)
        · rw [if_neg (by omega), if_neg (by omega)] at h1
          rcases Nat.lt_trichotomy b.toNat c.toNat with hbc | hbc | hbc
          · rw [if_pos (by omega)]
          · rw [if_neg (by omega), if_neg (by omega)] at h2
            rw [if_neg (by omega), if_neg (by omega)]
            exact ih bs cs h1 h2
          · rw [if_neg (by omega), if_pos hbc] at h2
            exact absurd h2 (by simp)
        · rw [if_neg (by omega), if_pos hab] at h1
          exact absurd h1 (by simp)

theorem charListLe_antisymm : ∀ (as bs : List Char), charListLe as bs = true →
    charListLe bs as = true → as = bs := by
  intro as
  induction as with
  | nil =>
    intro bs h1 h2
    cases bs with
    | nil => rfl
    | cons b bs => simp [charListLe] at h2
  | cons a as ih =>
    intro bs h1 h2
    cases bs with
    | nil => simp [charListLe] at h1
    | cons b bs =>
      simp only [charListLe] at h1 h2
      rcases Nat.lt_trichotomy a.toNat b.toNat with h | h | h
      · rw [if_neg (by omega), if_pos h] at h2
        simp at h2
      · have ha : ¬ a.toNat < b.toNat := by omega
        have hb : ¬ b.toNat < a.toNat := by omega
        rw [if_neg ha, if_neg hb] at h1
        rw [if_neg hb, if_neg ha] at h2
        have hc : a = b := by
          have hn := congrArg Char.ofNat h
          rwa [Char.ofNat_toNat, Char.ofNat_toNat] at hn
        rw [hc, ih bs h1 h2]
      · rw [if_neg (by omega), if_pos h] at h1
        simp at h1

theorem pyLe_antisymm {a b : String} (h1 : pyLe a b = true) (h2 : pyLe b a = true) :
    a = b := by
  have h := charListLe_antisymm a.data b.data h1 h2
  cases a
  cases b
  exact congrArg String.mk h

theorem pysort_sorted (l : List String) :
    (pysort l).Pairwise (fun a b => pyLe a b = true) := by
  haveI : IsTotal String (fun a b => pyLe a b = true) :=
    ⟨fun a b => charListLe_total a.data b.data⟩
  haveI : IsTrans String (fun a b => pyLe a b = true) :=
    ⟨fun a b c h1 h2 => charListLe_trans a.data b.data c.data h1 h2⟩
  exact List.sorted_insertionSort _ l

theorem pysort_perm (l : List String) : (pysort l).Perm l :=
  List.perm_insertionSort _ l

/-- Python `sorted` depends only on the multiset of elements. -/
theorem pysort_eq_of_perm {l1 l2 : List String} (h : l1.Perm l2) :
    pysort l1 = pysort l2 := by
  haveI : IsAntisymm String (fun a b => pyLe a b = true) :=
    ⟨fun _ _ h1 h2 => pyLe_antisymm h1 h2⟩
  exact List.eq_of_perm_of_sorted (((pysort_perm l1).trans h).trans (pysort_perm l2).symm)
    (pysort_sorted l1) (pysort_sorted l2)

/-- C1: two users whose matched role sets contain exactly the same elements
(in whatever discovery order) are given the identical combination key
`' + '.join(sorted(roles))` (lines 160-162). -/
theorem c1_combination_key_order_independent (r1 r2 : List String)
    (h1 : r1.Nodup) (h2 : r2.Nodup) (hmem : ∀ x, x ∈ r1 ↔ x ∈ r2) :
    roleCombination r1 = roleCombination r2 := by
  unfold roleCombination
  rw [pysort_eq_of_perm ((List.perm_ext_iff_of_nodup h1 h2).mpr hmem)]

theorem c1_witness :
    (["B", "A"] : List String).Nodup ∧ (["A", "B"] : List String).Nodup ∧
    (∀ x, x ∈ (["B", "A"] : List String) ↔ x ∈ (["A", "B"] : List String)) ∧
    roleCombination ["B", "A"] = roleCombination ["A", "B"] :=
  ⟨by decide, by decide, fun x => by simp [or_comm],
   c1_combination_key_order_independent ["B", "A"] ["A", "B"] (by decide) (by decide)
     (fun x => by simp [or_comm])⟩

/-- C7: `sorted(role_counts.items(), key=lambda x: x[1], reverse=True)`
(line 198) returns the same pairs, ordered by count descending, and pairs
with equal counts keep the relative order they had in the
insertion-ordered `role_counts` dict (Python's sort is stable). -/
theorem c7_ranked_sort_descending_stable (l : List (String × Nat)) :
    (rankCombinations l).Perm l ∧
    (rankCombinations l).Pairwise (fun a b => b.2 ≤ a.2) ∧
    ∀ c : Nat, (rankCombinations l).filter (fun e => e.2 == c) =
      l.filter (fun e => e.2 == c) := by
  haveI : IsTotal (String × Nat) (fun a b => b.2 ≤ a.2) :=
    ⟨fun a b => le_total b.2 a.2⟩
  haveI : IsTrans (String × Nat) (fun a b => b.2 ≤ a.2) :=
    ⟨fun _ _ _ h1 h2 => le_trans h2 h1⟩
  refine ⟨List.perm_insertionSort _ l, List.sorted_insertionSort _ l, ?_⟩
  intro c
  have hmemA : ∀ e ∈ l.filter (fun e => e.2 == c), e.2 = c := by
    intro e he
    have := List.of_mem_filter he
    simpa using this
  have hpair : (l.filter (fun e => e.2 == c)).Pairwise
      (fun a b : String × Nat => b.2 ≤ a.2) := by
    apply List.pairwise_of_forall_mem_list
    intro a ha b hb
    simp [hmemA a ha, hmemA b hb]
  have hsub : List.Sublist (l.filter (fun e => e.2 == c)) (rankCombinations l) :=
    List.sublist_insertionSort hpair (List.filter_sublist l)
  have hself : (l.filter (fun e => e.2 == c)).filter (fun e => e.2 == c) =
      l.filter (fun e => e.2 == c) :=
    List.filter_eq_self.mpr (fun a ha => (List.mem_filter.mp ha).2)
  have hsub2 : List.Sublist (l.filter (fun e => e.2 == c))
      ((rankCombinations l).filter (fun e => e.2 == c)) := by
    have := hsub.filter (fun e => e.2 == c)
    rwa [hself] at this
  have hperm : ((rankCombinations l).filter (fun e => e.2 == c)).Perm
      (l.filter (fun e => e.2 == c)) :=
    (List.perm_insertionSort _ l).filter _
  exact (hsub2.eq_of_length (by rw [hperm.length_eq])).symm

theorem dictGet_dictInsert_self {α : Type} (d : List (String × α)) (k : String) (v : α) :
    dictGet (dictInsert d k v) k = some v := by
  induction d with
  | nil => simp [dictGet, dictInsert]
  | cons e rest ih =>
    obtain ⟨k', v'⟩ := e
    by_cases h : k' = k
    · simp [dictGet, dictInsert, h]
    · simp [dictGet, dictInsert, h, ih]

theorem dictGet_dictInsert_ne {α : Type} (d : List (String × α)) (k k' : String) (v : α)
    (h : k' ≠ k) : dictGet (dictInsert d k v) k' = dictGet d k' := by
  have hne : ¬ (k = k') := fun he => h he.symm
  induction d with
  | nil => simp only [dictInsert, dictGet, if_neg hne]
  | cons e rest ih =>
    obtain ⟨k0, v0⟩ := e
    by_cases h0 : k0 = k
    · subst h0
      simp only [dictInsert, if_pos rfl, dictGet, if_neg hne]
    · simp only [dictInsert, if_neg h0, dictGet]
      by_cases h1 : k0 = k'
      · simp [h1]
      · simp [h1, ih]

theorem dictGet_isSome_iff {α : Type} (d : List (String × α)) (k : String) :
    (dictGet d k).isSome = true ↔ k ∈ d.map (fun e => e.1) := by
  induction d with
  | nil => simp [dictGet]
  | cons e rest ih =>
    obtain ⟨k0, v0⟩ := e
    by_cases h : k0 = k
    · simp [dictGet, h]
    · rw [dictGet, if_neg h]
      simp only [List.map_cons, List.mem_cons]
      constructor
      · intro hx
        exact Or.inr (ih.mp hx)
      · intro hx
        rcases hx with hx | hx
        · exact absurd hx.symm h
        · exact ih.mpr hx

/-- Total of all counter values, `sum(role_counts.values())`. -/
def sumVals (d : List (String × Nat)) : Nat :=
  (d.map (fun e => e.2)).sum

theorem sumVals_dictInsert_succ (d : List (String × Nat)) (k : String) :
    sumVals (dictInsert d k ((dictGet d k).getD 0 + 1)) = sumVals d + 1 := by
  induction d with
  | nil => simp [sumVals, dictGet, dictInsert]
  | cons e rest ih =>
    obtain ⟨k0, v0⟩ := e
    by_cases h : k0 = k
    · simp only [dictGet, dictInsert, h, if_true]
      simp [sumVals]
      omega
    · simp only [dictGet, dictInsert, h, if_false]
      simp only [sumVals, List.map_cons, List.sum_cons] at ih ⊢
      omega

/-! ### Row scanner invariants -/

/-- The alias keys of `user_roles`, in insertion order. -/
def urKeys (ur : UserRoles) : List String :=
  ur.map (fun e => e.1)

theorem updateRoles_keys (ur : UserRoles) (u : String) (rs : List String) :
    urKeys (updateRoles ur u rs) = urKeys ur := by
  induction ur with
  | nil => rfl
  | cons e rest ih =>
    simp only [updateRoles, urKeys, List.map_cons] at ih ⊢
    by_cases h : e.1 = u <;> simp [h, ih]

theorem processRoleRow_keys (cat : Catalog) (u : String) (r : Row) (ur : UserRoles) :
    urKeys (processRoleRow cat u r ur) = urKeys ur := by
  unfold processRoleRow
  rcases isStr (cellAt r 5) with _ | s
  · rfl
  · by_cases h1 : s ≠ "nan" <;> simp [h1]
    split <;> simp [updateRoles_keys]

theorem collectAux_keys (cat : Catalog) (u : String) :
    ∀ (l : List Row) (i : Nat) (ur : UserRoles),
      urKeys ((collectAux cat u l i ur).2) = urKeys ur := by
  intro l
  induction l with
  | nil => intro i ur; rfl
  | cons r rest ih =>
    intro i ur
    simp only [collectAux]
    split
    · rfl
    · rw [ih, processRoleRow_keys]

theorem registerUser_keys (ur : UserRoles) (u : String) :
    urKeys (registerUser ur u) =
      if (dictGet ur u).isSome then urKeys ur else urKeys ur ++ [u] := by
  unfold registerUser
  split <;> simp [urKeys]

theorem registerUser_keys_nodup (ur : UserRoles) (u : String)
    (h : (urKeys ur).Nodup) : (urKeys (registerUser ur u)).Nodup := by
  rw [registerUser_keys]
  split
  · exact h
  · rename_i hnone
    have hmem : u ∉ urKeys ur := by
      intro hc
      exact hnone ((dictGet_isSome_iff ur u).mpr hc)
    simp [List.nodup_append, h, hmem]

theorem outerStep_keys_nodup (cat : Catalog) (df : List Row) (s : Nat × UserRoles)
    (h : (urKeys s.2).Nodup) : (urKeys (outerStep cat df s).2).Nodup := by
  unfold outerStep
  rcases df[s.1]? with _ | row
  · exact h
  · simp only
    split
    · rcases df[s.1 + 1]? with _ | userRow
      · exact h
      · simp only
        rcases df[s.1 + 2]? with _ | r2
        · exact registerUser_keys_nodup _ _ h
        · simp only
          split
          · rw [collectAux_keys]
            exact registerUser_keys_nodup _ _ h
          · exact registerUser_keys_nodup _ _ h
    · exact h

theorem scanUsers_keys_nodup (cat : Catalog) (df : List Row) :
    (urKeys (scanUsers cat df)).Nodup := by
  unfold scanUsers
  generalize df.length = n
  induction n with
  | zero => simp [urKeys]
  | succ m ih =>
    rw [Function.iterate_succ_apply']
    exact outerStep_keys_nodup cat df _ ih

/-! ### Fidelity of the bounded loop unrolling: each outer iteration advances
the cursor, `df.length` iterations drain the loop, and once the cursor is past
the end the step is the identity (so the `df.length` bound in `scanUsers` is
exactly the Python `while i < len(df)` loop). -/

theorem collectAux_fst_ge (cat : Catalog) (u : String) :
    ∀ (l : List Row) (i : Nat) (ur : UserRoles),
      i - 1 ≤ (collectAux cat u l i ur).1 := by
  intro l
  induction l with
  | nil => intro i ur; simp [collectAux]
  | cons r rest ih =>
    intro i ur
    simp only [collectAux]
    split
    · exact Nat.le_refl _
    · have := ih (i + 1) (processRoleRow cat u r ur)
      omega

theorem outerStep_progress (cat : Catalog) (df : List Row) (s : Nat × UserRoles)
    (h : s.1 < df.length) : s.1 + 1 ≤ (outerStep cat df s).1 := by
  unfold outerStep
  have hx : df[s.1]? = some df[s.1] := List.getElem?_eq_getElem h
  rw [hx]
  simp only
  split
  · rcases df[s.1 + 1]? with _ | userRow
    · simp
    · simp only
      rcases df[s.1 + 2]? with _ | r2
      · simp
      · simp only
        split
        · have := collectAux_fst_ge cat (pyStr (cellAt userRow 3))
            (df.drop (s.1 + 3)) (s.1 + 3) (registerUser s.2 (pyStr (cellAt userRow 3)))
          simp only
          omega
        · simp
  · simp

theorem outerStep_fix (cat : Catalog) (df : List Row) (s : Nat × UserRoles)
    (h : df.length ≤ s.1) : outerStep cat df s = s := by
  unfold outerStep
  rw [List.getElem?_eq_none h]

theorem scanUsers_consumes_all (cat : Catalog) (df : List Row) :
    df.length ≤ ((outerStep cat df)^[df.length] (0, ([] : List (String × List String)))).1 := by
  have key : ∀ (n : Nat) (s : Nat × UserRoles),
      min df.length (s.1 + n) ≤ ((outerStep cat df)^[n] s).1 := by
    intro n
    induction n with
    | zero => intro s; simp
    | succ m ih =>
      intro s
      rw [Function.iterate_succ_apply]
      have hm := ih (outerStep cat df s)
      by_cases hlt : s.1 < df.length
      · have := outerStep_progress cat df s hlt
        omega
      · rw [outerStep_fix cat df s (by omega)] at hm ⊢
        omega
  have := key df.length (0, ([] : List (String × List String)))
  simpa using this

/-! ### C4: conservation of matched users -/

theorem aggregate_sum (cat : Catalog) :
    ∀ (users : List (String × List String)) (st : AggState),
      sumVals (List.foldl (aggUser cat) st users).roleCounts =
        sumVals st.roleCounts + (users.filter (fun e => decide (e.2 ≠ []))).length := by
  intro users
  induction users with
  | nil => intro st; simp
  | cons p rest ih =>
    intro st
    rw [List.foldl_cons, ih]
    by_cases h : p.2 = []
    · simp [aggUser, h]
    · have hfil : List.filter (fun e => decide (e.2 ≠ [])) (p :: rest) =
          p :: List.filter (fun e => decide (e.2 ≠ [])) rest := by
        rw [List.filter_cons]
        simp [h]
      have hagg : (aggUser cat st p).roleCounts =
          dictInsert st.roleCounts (roleCombination p.2)
            ((dictGet st.roleCounts (roleCombination p.2)).getD 0 + 1) := by
        simp [aggUser, h]
      rw [hfil, hagg, sumVals_dictInsert_succ, List.length_cons]
      omega

theorem scanUsers_empty_cat (df : List Row) :
    ∀ e ∈ scanUsers ([] : Catalog) df, e.2 = [] := by
  have hpr : ∀ u r ur, processRoleRow ([] : Catalog) u r ur = ur := by
    intro u r ur
    unfold processRoleRow
    rcases isStr (cellAt r 5) with _ | s
    · rfl
    · simp [roleInCatalog, dictGet, List.filter]
  have hcoll : ∀ (l : List Row) (i : Nat) (ur : UserRoles) (u : String),
      (collectAux ([] : Catalog) u l i ur).2 = ur := by
    intro l
    induction l with
    | nil => intro i ur u; rfl
    | cons r rest ih =>
      intro i ur u
      simp only [collectAux]
      split
      · rfl
      · rw [hpr, ih]
  have hreg : ∀ (ur : UserRoles) u, (∀ e ∈ ur, e.2 = []) →
      ∀ e ∈ registerUser ur u, e.2 = [] := by
    intro ur u h e he
    unfold registerUser at he
    split at he
    · exact h e he
    · rcases List.mem_append.mp he with h1 | h1
      · exact h e h1
      · simp at h1; simp [h1]
  have hstep : ∀ (s : Nat × UserRoles), (∀ e ∈ s.2, e.2 = []) →
      ∀ e ∈ (outerStep ([] : Catalog) df s).2, e.2 = [] := by
    intro s hs
    unfold outerStep
    rcases df[s.1]? with _ | row
    · exact hs
    · simp only
      split
      · rcases df[s.1 + 1]? with _ | userRow
        · exact hs
        · simp only
          rcases df[s.1 + 2]? with _ | r2
          · exact hreg _ _ hs
          · simp only
            split
            · rw [hcoll]
              exact hreg _ _ hs
            · exact hreg _ _ hs
      · exact hs
  unfold scanUsers
  generalize df.length = n
  induction n with
  | zero => simp
  | succ m ih =>
    rw [Function.iterate_succ_apply']
    exact hstep _ ih

/-- C4: the sum of all combination counts equals the number of distinct
user aliases whose matched role set is non-empty.  The alias keys of
`user_roles` are duplicate-free (repeated appearances of an alias are
unioned into the one existing entry, lines 119-120 and 148), users with an
empty matched set are skipped by the `if roles:` guard (line 159), and each
remaining user adds exactly 1 to one counter (line 165).  The ranked output
of `extract_roles` carries the same multiset of counts. -/
theorem c4_counts_sum_conservation (cat : Catalog) (df : List Row) :
    sumVals (aggregate cat (scanUsers cat df)).roleCounts =
      ((scanUsers cat df).filter (fun e => decide (e.2 ≠ []))).length ∧
    (urKeys (scanUsers cat df)).Nodup ∧
    (((extractRoles cat df).1).map (fun e => e.2)).sum =
      ((scanUsers cat df).filter (fun e => decide (e.2 ≠ []))).length := by
  refine ⟨?_, scanUsers_keys_nodup cat df, ?_⟩
  · have := aggregate_sum cat (scanUsers cat df) ⟨[], [], []⟩
    simpa [aggregate, sumVals] using this
  · by_cases hcat : cat = []
    · subst hcat
      have hempty : List.filter (fun e => decide (e.2 ≠ [])) (scanUsers ([] : Catalog) df) = [] := by
        apply List.filter_eq_nil_iff.mpr
        intro e he
        simp [scanUsers_empty_cat df e he]
      rw [hempty]
      simp [extractRoles]
    · by_cases hdf : df = []
      · subst hdf
        simp [extractRoles, hcat, scanUsers]
      · have hsum : ((rankCombinations
            (aggregate cat (scanUsers cat df)).roleCounts).map (fun e => e.2)).sum =
            sumVals (aggregate cat (scanUsers cat df)).roleCounts := by
          have hperm := (List.perm_insertionSort
            (fun a b : String × Nat => b.2 ≤ a.2)
            (aggregate cat (scanUsers cat df)).roleCounts).map (fun e => e.2)
          exact hperm.sum_eq
        have h1 := aggregate_sum cat (scanUsers cat df) ⟨[], [], []⟩
        simp only [extractRoles, if_neg hcat, if_neg hdf]
        rw [hsum]
        simpa [aggregate, sumVals] using h1

/-! ### Sample data used by witnesses and counterexamples -/

/-- A block-header row: `"Alias"` in column 3. -/
def sampleHeaderRow : Row :=
  [Cell.other "nan", Cell.other "nan", Cell.other "nan", Cell.str "Alias"]

/-- A user-identity row: the alias in column 3. -/
def sampleAliasRow (u : String) : Row :=
  [Cell.other "nan", Cell.other "nan", Cell.other "nan", Cell.str u]

/-- A secondary-header row: `"Security Role"` in column 5. -/
def sampleSecurityRow : Row :=
  [Cell.other "nan", Cell.other "nan", Cell.other "nan", Cell.other "nan",
   Cell.other "nan", Cell.str "Security Role"]

/-- A role-list row: the role cell in column 5. -/
def sampleRoleRow (s : String) : Row :=
  [Cell.other "nan", Cell.other "nan", Cell.other "nan", Cell.other "nan",
   Cell.other "nan", Cell.str s]

/-- A one-role catalog. -/
def sampleCatalog : Catalog := [("RoleA", ⟨true, false, false, false, false⟩)]

/-! ### C5: a block ends on the next "Alias" marker and that row is
re-examined -/

theorem collectAux_stops (cat : Catalog) (u : String) (df : List Row) (i : Nat) (row : Row)
    (hi : df[i]? = some row) (hrow : isAliasHeader row = true) :
    ∀ (n j : Nat) (ur : UserRoles), j + n = i →
      (∀ k, j ≤ k → k < i → ∀ r, df[k]? = some r → isAliasHeader r = false) →
      (collectAux cat u (df.drop j) j ur).1 = i - 1 := by
  have hilen : i < df.length := (List.getElem?_eq_some_iff.mp hi).1
  have hival : df.get ⟨i, hilen⟩ = row := by
    have h2 := (List.getElem?_eq_some_iff.mp hi).2
    simpa [List.get_eq_getElem] using h2
  intro n
  induction n with
  | zero =>
    intro j ur hj _
    have hj' : j = i := by omega
    subst hj'
    rw [List.drop_eq_get_cons hilen, hival]
    simp [collectAux, hrow]
  | succ m ih =>
    intro j ur hj hnone
    have hjlen : j < df.length := by omega
    rw [List.drop_eq_get_cons hjlen]
    have hk : isAliasHeader (df.get ⟨j, hjlen⟩) = false := by
      have hg : df[j]? = some (df.get ⟨j, hjlen⟩) := by
        simp [List.getElem?_eq_getElem hjlen, List.get_eq_getElem]
      exact hnone j (Nat.le_refl j) (by omega) _ hg
    simp only [collectAux, hk, Bool.false_eq_true, if_false]
    exact ih (j + 1) _ (by omega) (fun k h1 h2 r hr => hnone k (by omega) h2 r hr)

/-- C5: while collecting roles (inner loop, lines 131-149), the first row
whose marker column again reads `"Alias"` ends the block: the loop backs
up one row (`i -= 1`, line 135) and breaks, so after the outer `i += 1`
(line 150) the very same row index `i` is examined again as a block
header — no input row is skipped at a block boundary. -/
theorem c5_block_boundary_row_reexamined (cat : Catalog) (u : String) (df : List Row)
    (j i : Nat) (ur : UserRoles) (row : Row)
    (hj : 1 ≤ j) (hji : j ≤ i)
    (hi : df[i]? = some row) (hrow : isAliasHeader row = true)
    (hbetween : ∀ k, j ≤ k → k < i → ∀ r, df[k]? = some r → isAliasHeader r = false) :
    (collectAux cat u (df.drop j) j ur).1 + 1 = i := by
  rw [collectAux_stops cat u df i row hi hrow (i - j) j ur (by omega) hbetween]
  omega

theorem c5_witness :
    (collectAux sampleCatalog "u" (([sampleAliasRow "x", sampleHeaderRow] :
      List Row).drop 1) 1 []).1 + 1 = 1 :=
  c5_block_boundary_row_reexamined sampleCatalog "u"
    [sampleAliasRow "x", sampleHeaderRow] 1 1 [] sampleHeaderRow
    (Nat.le_refl 1) (Nat.le_refl 1) rfl rfl
    (fun _ h1 h2 _ _ => absurd (Nat.lt_of_le_of_lt h1 h2) (Nat.lt_irrefl 1))

/-! ### C6: recovery from a malformed block -/

theorem dictGet_append_fresh {α : Type} (d : List (String × α)) (k : String) (v : α)
    (h : dictGet d k = none) : dictGet (d ++ [(k, v)]) k = some v := by
  induction d with
  | nil => simp [dictGet]
  | cons e rest ih =>
    obtain ⟨k0, v0⟩ := e
    by_cases h0 : k0 = k
    · rw [dictGet, if_pos h0] at h
      cases h
    · rw [dictGet, if_neg h0] at h
      simp only [List.cons_append, dictGet, if_neg h0]
      exact ih h

theorem dictGet_registerUser_self (ur : UserRoles) (u : String) :
    (dictGet (registerUser ur u) u).isSome = true := by
  unfold registerUser
  cases h : dictGet ur u with
  | some v => simp [h]
  | none => simp [h, dictGet_append_fresh ur u ([] : List String) h]

/-- A malformed block's header row: `"Alias"` in column 3 but nothing in
column 5, placed where the secondary-header check of line 127 looks. -/
def skippedHeaderRow : Row :=
  [Cell.other "nan", Cell.other "nan", Cell.other "nan", Cell.str "Alias",
   Cell.other "nan", Cell.other "nan"]

/-- A malformed block for `u1` (no `"Security Role"` row) immediately
followed — exactly two rows after its header — by a fully well-formed
block for `u2`. -/
def dfSkippedHeader : List Row :=
  [sampleHeaderRow, sampleAliasRow "u1", skippedHeaderRow,
   sampleAliasRow "u2", sampleSecurityRow, sampleRoleRow "RoleA"]

/-- C6 counterexample: in `dfSkippedHeader` the row at index 2 is a real
block header (its block has an alias row, the `"Security Role"` header and
a role row matching the catalog), yet the scan of lines 109-150 never
examines it: after the malformed `u1` block the cursor jumps from 0 to
2 + 1 = 3 (lines 124, 150), so user `u2` is never registered and `RoleA`
never collected — the next real block header is NOT recognized when it
sits exactly two rows after the previous block's header.  The claim's
"scanning resumes so that the next real block header in the input is
still recognized" is therefore false on this input. -/
theorem c6_counterexample :
    dfSkippedHeader[2]? = some skippedHeaderRow ∧
    isAliasHeader skippedHeaderRow = true ∧
    dfSkippedHeader[3]? = some (sampleAliasRow "u2") ∧
    dfSkippedHeader[4]? = some sampleSecurityRow ∧
    isSecurityRoleHeader sampleSecurityRow = true ∧
    roleInCatalog sampleCatalog "RoleA" = true ∧
    scanUsers sampleCatalog dfSkippedHeader = [("u1", [])] ∧
    (extractRoles sampleCatalog dfSkippedHeader).1 = [] := by
  decide

/-- C6 amended: when a block's alias row is present but the row two past
the block header does not carry `"Security Role"` (lines 123-127 fail),
the user is still registered with an empty role set, no roles are
collected, no error is raised, and the outer loop resumes at the third
row after the block header (`i += 2` at line 124, then `i += 1` at line
150) — so any later block header at distance at least three from this
block's header is still reached, while one exactly two rows after the
header (at the failed secondary-header position itself) is skipped. -/
theorem c6_amended_malformed_block_recovery (cat : Catalog) (df : List Row)
    (i : Nat) (ur : UserRoles) (row userRow r2 : Row)
    (h1 : df[i]? = some row) (h2 : isAliasHeader row = true)
    (h3 : df[i + 1]? = some userRow)
    (h4 : df[i + 2]? = some r2) (h5 : isSecurityRoleHeader r2 = false) :
    outerStep cat df (i, ur) =
      (i + 3, registerUser ur (pyStr (cellAt userRow 3))) ∧
    (dictGet ur (pyStr (cellAt userRow 3)) = none →
      dictGet (registerUser ur (pyStr (cellAt userRow 3)))
        (pyStr (cellAt userRow 3)) = some []) := by
  constructor
  · simp only [outerStep, h1, h2, h3, h4, h5, if_true, Bool.false_eq_true, if_false]
  · intro hfresh
    unfold registerUser
    rw [hfresh]
    simp only [Option.isSome_none, Bool.false_eq_true, if_false]
    exact dictGet_append_fresh ur _ ([] : List String) hfresh

theorem c6_amended_witness :
    outerStep sampleCatalog dfSkippedHeader (0, []) = (3, [("u1", [])]) ∧
    dictGet ([("u1", [])] : UserRoles) "u1" = some [] :=
  have h := c6_amended_malformed_block_recovery sampleCatalog dfSkippedHeader 0 []
    sampleHeaderRow (sampleAliasRow "u1") skippedHeaderRow
    rfl (by decide) rfl rfl (by decide)
  ⟨h.1, h.2 rfl⟩

/-! ### C10: a non-string alias cell still yields a registered user -/

/-- An alias row whose alias cell is not a string (e.g. an empty cell:
NaN, whose Python `str()` is `"nan"`). -/
def nanAliasRow : Row :=
  [Cell.other "nan", Cell.other "nan", Cell.other "nan", Cell.other "nan"]

/-- A block whose alias cell is empty (non-string). -/
def dfNanAlias : List Row :=
  [sampleHeaderRow, nanAliasRow, sampleSecurityRow, sampleRoleRow "RoleA"]

/-- C10: when a block header is followed by an alias row whose designated
cell is not a string (empty/null/numeric), line 118 still registers a user
keyed by the `str()` conversion of that cell (`"nan"` for a missing
value) — the scanner does not skip the block and raises no error — and,
when the secondary header matches, proceeds to collect roles for that user
exactly as for a string alias (lines 116-149). -/
theorem c10_nonstring_alias_still_registered (cat : Catalog) (df : List Row)
    (i : Nat) (ur : UserRoles) (row userRow : Row)
    (h1 : df[i]? = some row) (h2 : isAliasHeader row = true)
    (h3 : df[i + 1]? = some userRow)
    (_h4 : isStr (cellAt userRow 3) = none) :
    (dictGet ((outerStep cat df (i, ur)).2) (pyStr (cellAt userRow 3))).isSome = true ∧
    (∀ r2, df[i + 2]? = some r2 → isSecurityRoleHeader r2 = true →
      outerStep cat df (i, ur) =
        ((collectAux cat (pyStr (cellAt userRow 3)) (df.drop (i + 3)) (i + 3)
            (registerUser ur (pyStr (cellAt userRow 3)))).1 + 1,
         (collectAux cat (pyStr (cellAt userRow 3)) (df.drop (i + 3)) (i + 3)
            (registerUser ur (pyStr (cellAt userRow 3)))).2)) := by
  have hreg : ∀ ur2 : UserRoles,
      urKeys ur2 = urKeys (registerUser ur (pyStr (cellAt userRow 3))) →
      (dictGet ur2 (pyStr (cellAt userRow 3))).isSome = true := by
    intro ur2 hk
    rw [dictGet_isSome_iff]
    have h2' := dictGet_registerUser_self ur (pyStr (cellAt userRow 3))
    rw [dictGet_isSome_iff] at h2'
    have hk' : ur2.map (fun e => e.1) =
        (registerUser ur (pyStr (cellAt userRow 3))).map (fun e => e.1) := hk
    rw [hk']
    exact h2'
  constructor
  · simp only [outerStep, h1, h2, h3, if_true]
    cases hr2 : df[i + 2]? with
    | none => exact hreg _ rfl
    | some r2 =>
      simp only
      by_cases hsec : isSecurityRoleHeader r2 = true
      · simp only [hsec, if_true]
        exact hreg _ (collectAux_keys cat _ _ _ _)
      · simp only [Bool.not_eq_true] at hsec
        simp only [hsec, Bool.false_eq_true, if_false]
        exact hreg _ rfl
  · intro r2 hr2 hsec
    simp only [outerStep, h1, h2, h3, hr2, hsec, if_true]

theorem c10_witness :
    isStr (cellAt nanAliasRow 3) = none ∧
    (dictGet ((outerStep sampleCatalog dfNanAlias (0, [])).2) "nan").isSome = true :=
  ⟨rfl, (c10_nonstring_alias_still_registered sampleCatalog dfNanAlias 0 []
    sampleHeaderRow nanAliasRow rfl (by decide) rfl rfl).1⟩

/-! ### C2: combined license requirements -/

theorem combinedLicenses_foldl (cat : Catalog) : ∀ (l : List String) (acc : Licenses),
    List.foldl (fun a r => orLicenses a (catalogFlags cat r)) acc l =
      ⟨acc.finance || l.any (fun r => (catalogFlags cat r).finance),
       acc.scm || l.any (fun r => (catalogFlags cat r).scm),
       acc.commerce || l.any (fun r => (catalogFlags cat r).commerce),
       acc.project || l.any (fun r => (catalogFlags cat r).project),
       acc.hr || l.any (fun r => (catalogFlags cat r).hr)⟩ := by
  intro l
  induction l with
  | nil =>
    intro acc
    obtain ⟨f, s, c, p, h⟩ := acc
    simp
  | cons r rest ih =>
    intro acc
    rw [List.foldl_cons, ih]
    simp [orLicenses, Bool.or_assoc]

theorem pysort_any (l : List String) (p : String → Bool) :
    (pysort l).any p = l.any p := by
  by_cases h : l.any p = true
  · rw [h]
    rw [List.any_eq_true] at h ⊢
    obtain ⟨x, hx, hpx⟩ := h
    exact ⟨x, (pysort_perm l).mem_iff.mpr hx, hpx⟩
  · have h2 : ¬ (pysort l).any p = true := by
      rw [List.any_eq_true] at h ⊢
      intro hc
      obtain ⟨x, hx, hpx⟩ := hc
      exact h ⟨x, (pysort_perm l).mem_iff.mp hx, hpx⟩
    rw [Bool.not_eq_true] at h h2
    rw [h, h2]

/-- The element-wise OR of the catalog flags over every role of a set,
as computed by the loop of lines 177-180 over the sorted role list. -/
theorem combinedLicenses_pysort (cat : Catalog) (l : List String) :
    combinedLicenses cat (pysort l) =
      ⟨l.any (fun r => (catalogFlags cat r).finance),
       l.any (fun r => (catalogFlags cat r).scm),
       l.any (fun r => (catalogFlags cat r).commerce),
       l.any (fun r => (catalogFlags cat r).project),
       l.any (fun r => (catalogFlags cat r).hr)⟩ := by
  unfold combinedLicenses
  rw [combinedLicenses_foldl]
  simp [noLicenses, pysort_any]

/-- A catalog in which the role name `"X + Y"` collides with the
combination key of the set `{X, Y}`. -/
def collisionCatalog : Catalog :=
  [("X", ⟨true, false, false, false, false⟩),
   ("Y", ⟨true, false, false, false, false⟩),
   ("X + Y", noLicenses)]

/-- Two well-formed blocks: user `u1` with role cell `"X, Y"` and user
`u2` with role cell `"X + Y"` (a single role whose name contains the
separator). -/
def dfCollision : List Row :=
  [sampleHeaderRow, sampleAliasRow "u1", sampleSecurityRow, sampleRoleRow "X, Y",
   sampleHeaderRow, sampleAliasRow "u2", sampleSecurityRow, sampleRoleRow "X + Y"]

/-- C2 counterexample: `u1`'s matched role set is `{X, Y}` and builds the
combination key `"X + Y"` (line 162); role `X` requires Finance in the
catalog; but `u2`'s single role is literally named `"X + Y"`, builds the
same key, and is aggregated later, overwriting `license_requirements`
(line 182) with its all-false flags.  In the final output the key
`"X + Y"` is present and its stored flags are all false, so the Finance
flag — true for role `X` of the combination — is not true for the
combination: the claim as stated fails. -/
theorem c2_counterexample :
    scanUsers collisionCatalog dfCollision = [("u1", ["X", "Y"]), ("u2", ["X + Y"])] ∧
    roleCombination ["X", "Y"] = "X + Y" ∧
    catalogFlags collisionCatalog "X" = ⟨true, false, false, false, false⟩ ∧
    (extractRoles collisionCatalog dfCollision).1 = [("X + Y", 2)] ∧
    dictGet (extractRoles collisionCatalog dfCollision).2.1 "X + Y" = some noLicenses := by
  decide

theorem aggregate_append (cat : Catalog) (l : List (String × List String))
    (p : String × List String) :
    aggregate cat (l ++ [p]) = aggUser cat (aggregate cat l) p := by
  simp [aggregate, List.foldl_append]

/-- C2 amended: provided no two users with different (nonempty) matched
role sets build the same combination key — which can only fail when a
role name itself contains the separator `' + '` — the entry of
`license_requirements` at each user's combination key equals, category by
category, the OR over every role of that user's set of the role's catalog
flag (lines 167-182); in particular a flag true for some role of the
combination is true for the combination. -/
theorem c2_amended_license_requirements_or (cat : Catalog)
    (users : List (String × List String))
    (hinj : ∀ p1, p1 ∈ users → ∀ p2, p2 ∈ users → p1.2 ≠ [] → p2.2 ≠ [] →
      roleCombination p1.2 = roleCombination p2.2 → pysort p1.2 = pysort p2.2) :
    ∀ p, p ∈ users → p.2 ≠ [] →
      dictGet (aggregate cat users).licenseReqs (roleCombination p.2) =
        some ⟨p.2.any (fun r => (catalogFlags cat r).finance),
              p.2.any (fun r => (catalogFlags cat r).scm),
              p.2.any (fun r => (catalogFlags cat r).commerce),
              p.2.any (fun r => (catalogFlags cat r).project),
              p.2.any (fun r => (catalogFlags cat r).hr)⟩ := by
  induction users using List.reverseRecOn with
  | nil => intro p hp; cases hp
  | append_singleton l q ih =>
    intro p hp hpne
    have hinj' : ∀ p1, p1 ∈ l → ∀ p2, p2 ∈ l → p1.2 ≠ [] → p2.2 ≠ [] →
        roleCombination p1.2 = roleCombination p2.2 → pysort p1.2 = pysort p2.2 :=
      fun p1 h1 p2 h2 => hinj p1 (List.mem_append_left _ h1) p2 (List.mem_append_left _ h2)
    rw [aggregate_append]
    rcases List.mem_append.mp hp with hpl | hpq
    · have hIH := ih hinj' p hpl hpne
      by_cases hq : q.2 = []
      · simpa [aggUser, hq] using hIH
      · have hlr : (aggUser cat (aggregate cat l) q).licenseReqs =
            dictInsert (aggregate cat l).licenseReqs (roleCombination q.2)
              (combinedLicenses cat (pysort q.2)) := by
          simp [aggUser, hq]
        rw [hlr]
        by_cases hkey : roleCombination p.2 = roleCombination q.2
        · have hsorteq : pysort p.2 = pysort q.2 :=
            hinj p (List.mem_append_left _ hpl) q
              (List.mem_append_right _ (List.mem_singleton_self q)) hpne hq hkey
          rw [hkey, dictGet_dictInsert_self, ← hsorteq, combinedLicenses_pysort]
        · rw [dictGet_dictInsert_ne _ _ _ _ hkey]
          exact hIH
    · have hpq' : p = q := by simpa using hpq
      subst hpq'
      have hlr : (aggUser cat (aggregate cat l) p).licenseReqs =
          dictInsert (aggregate cat l).licenseReqs (roleCombination p.2)
            (combinedLicenses cat (pysort p.2)) := by
        simp [aggUser, hpne]
      rw [hlr, dictGet_dictInsert_self, combinedLicenses_pysort]

theorem c2_amended_witness :
    dictGet (aggregate sampleCatalog [("u", ["RoleA"])]).licenseReqs
      (roleCombination ["RoleA"]) =
      some ⟨true, false, false, false, false⟩ :=
  c2_amended_license_requirements_or sampleCatalog [("u", ["RoleA"])]
    (fun p1 h1 p2 h2 _ _ _ => by
      have e1 : p1 = ("u", ["RoleA"]) := by simpa using h1
      have e2 : p2 = ("u", ["RoleA"]) := by simpa using h2
      rw [e1, e2])
    ("u", ["RoleA"]) (by simp) (by decide)

/-! ### C3: signature groups as a partition of the combination keys -/

/-- C3 counterexample: with the separator-colliding catalog, the single
combination key `"X + Y"` of the output (count 2 in `counts`) appears in
TWO signature groups — `"Finance"` (written for `u1`, storing the stale
count 1) and `""` (written for `u2`, storing 2).  Both the "exactly one
signature group" part and the "stored count equals the value in `counts`"
part of the claim are false on this input. -/
theorem c3_counterexample :
    (extractRoles collisionCatalog dfCollision).1 = [("X + Y", 2)] ∧
    dictGet (extractRoles collisionCatalog dfCollision).2.2 "Finance" =
      some [("X + Y", 1)] ∧
    dictGet (extractRoles collisionCatalog dfCollision).2.2 "" =
      some [("X + Y", 2)] ∧
    ("Finance" : String) ≠ "" := by
  decide

/-- The combination key of one `user_roles` entry (lines 161-162). -/
def combKey (p : String × List String) : String :=
  roleCombination p.2

/-- The license-signature string of one `user_roles` entry
(lines 168-192). -/
def combSig (cat : Catalog) (p : String × List String) : String :=
  licenseSignature (combinedLicenses cat (pysort p.2))

theorem aggUser_roleCounts_eq (cat : Catalog) (st : AggState)
    (q : String × List String) (hq : q.2 ≠ []) :
    (aggUser cat st q).roleCounts =
      dictInsert st.roleCounts (combKey q)
        ((dictGet st.roleCounts (combKey q)).getD 0 + 1) := by
  simp [aggUser, hq, combKey]

theorem aggUser_combinationTypes_eq (cat : Catalog) (st : AggState)
    (q : String × List String) (hq : q.2 ≠ []) :
    (aggUser cat st q).combinationTypes =
      dictInsert st.combinationTypes (combSig cat q)
        (dictInsert ((dictGet st.combinationTypes (combSig cat q)).getD [])
          (combKey q)
          ((dictGet st.roleCounts (combKey q)).getD 0 + 1)) := by
  simp [aggUser, hq, combKey, combSig]

/-- Soundness and completeness of the signature-group dictionaries built
by lines 184-195, relative to `counts`: every entry of a group records the
current count of a key contributed by some processed user whose signature
is the group's key, and every counted key is stored in some group. -/
theorem aggregate_groups_inv (cat : Catalog) (users : List (String × List String))
    (hinj : ∀ p1, p1 ∈ users → ∀ p2, p2 ∈ users → p1.2 ≠ [] → p2.2 ≠ [] →
      roleCombination p1.2 = roleCombination p2.2 → pysort p1.2 = pysort p2.2) :
    (∀ sig grp key m,
      dictGet (aggregate cat users).combinationTypes sig = some grp →
      dictGet grp key = some m →
      dictGet (aggregate cat users).roleCounts key = some m ∧
      ∃ p, p ∈ users ∧ p.2 ≠ [] ∧ combKey p = key ∧ sig = combSig cat p) ∧
    (∀ key m, dictGet (aggregate cat users).roleCounts key = some m →
      ∃ sig grp, dictGet (aggregate cat users).combinationTypes sig = some grp ∧
        dictGet grp key = some m) := by
  induction users using List.reverseRecOn with
  | nil =>
    constructor
    · intro sig grp key m hg _
      simp [aggregate, dictGet] at hg
    · intro key m hk
      simp [aggregate, dictGet] at hk
  | append_singleton l q ih =>
    have hinj' : ∀ p1, p1 ∈ l → ∀ p2, p2 ∈ l → p1.2 ≠ [] → p2.2 ≠ [] →
        roleCombination p1.2 = roleCombination p2.2 → pysort p1.2 = pysort p2.2 :=
      fun p1 h1 p2 h2 =>
        hinj p1 (List.mem_append_left _ h1) p2 (List.mem_append_left _ h2)
    obtain ⟨ihb, ihc⟩ := ih hinj'
    rw [aggregate_append]
    by_cases hq : q.2 = []
    · have hstep : aggUser cat (aggregate cat l) q = aggregate cat l := by
        simp [aggUser, hq]
      rw [hstep]
      constructor
      · intro sig grp key m hg hk
        obtain ⟨hcount, p, hpmem, hpne, hpkey, hpsig⟩ := ihb sig grp key m hg hk
        exact ⟨hcount, p, List.mem_append_left _ hpmem, hpne, hpkey, hpsig⟩
      · exact ihc
    · rw [aggUser_roleCounts_eq cat _ q hq, aggUser_combinationTypes_eq cat _ q hq]
      constructor
      · intro sig grp key m hg hk
        by_cases hsig : sig = combSig cat q
        · subst hsig
          rw [dictGet_dictInsert_self] at hg
          obtain rfl : dictInsert
              ((dictGet (aggregate cat l).combinationTypes (combSig cat q)).getD [])
              (combKey q)
              ((dictGet (aggregate cat l).roleCounts (combKey q)).getD 0 + 1) = grp :=
            Option.some.inj hg
          by_cases hkey : key = combKey q
          · subst hkey
            rw [dictGet_dictInsert_self] at hk
            rw [dictGet_dictInsert_self]
            exact ⟨hk, q, List.mem_append_right _ (List.mem_singleton_self q), hq,
              rfl, rfl⟩
          · rw [dictGet_dictInsert_ne _ _ _ _ hkey] at hk
            cases hG : dictGet (aggregate cat l).combinationTypes (combSig cat q) with
            | none =>
              rw [hG] at hk
              simp [dictGet] at hk
            | some g =>
              rw [hG] at hk
              have hk' : dictGet g key = some m := hk
              obtain ⟨hcount, p, hpmem, hpne, hpkey, hpsig⟩ :=
                ihb (combSig cat q) g key m hG hk'
              refine ⟨?_, p, List.mem_append_left _ hpmem, hpne, hpkey, hpsig⟩
              rw [dictGet_dictInsert_ne _ _ _ _ hkey]
              exact hcount
        · rw [dictGet_dictInsert_ne _ _ _ _ hsig] at hg
          obtain ⟨hcount, p, hpmem, hpne, hpkey, hpsig⟩ := ihb sig grp key m hg hk
          have hkeyne : key ≠ combKey q := by
            intro hkeq
            apply hsig
            have hps : pysort p.2 = pysort q.2 :=
              hinj p (List.mem_append_left _ hpmem) q
                (List.mem_append_right _ (List.mem_singleton_self q)) hpne hq
                (by rw [← combKey, ← combKey, hpkey, hkeq])
            rw [hpsig]
            unfold combSig
            rw [hps]
          refine ⟨?_, p, List.mem_append_left _ hpmem, hpne, hpkey, hpsig⟩
          rw [dictGet_dictInsert_ne _ _ _ _ hkeyne]
          exact hcount
      · intro key m hk
        by_cases hkey : key = combKey q
        · subst hkey
          rw [dictGet_dictInsert_self] at hk
          refine ⟨combSig cat q, _, dictGet_dictInsert_self _ _ _, ?_⟩
          rw [dictGet_dictInsert_self]
          exact hk
        · rw [dictGet_dictInsert_ne _ _ _ _ hkey] at hk
          obtain ⟨sig, grp, hg, hgk⟩ := ihc key m hk
          by_cases hsig : sig = combSig cat q
          · subst hsig
            refine ⟨combSig cat q, _, dictGet_dictInsert_self _ _ _, ?_⟩
            rw [dictGet_dictInsert_ne _ _ _ _ hkey, hg]
            exact hgk
          · refine ⟨sig, grp, ?_, hgk⟩
            rw [dictGet_dictInsert_ne _ _ _ _ hsig]
            exact hg

/-- C3 amended: provided no two users with different (nonempty) matched
role sets build the same combination key (no separator collisions — see
`c3_counterexample`), every combination key of `counts` comes from some
user's matched role set, appears in exactly one signature group, namely
the group keyed by `licenseSignature (combinedLicenses ...)` of that
set — the comma-joined list, in the fixed category order, of the
categories whose combined flag is true (lines 184-192) — and the count
stored for it in that group equals its value in `counts` (line 195). -/
theorem c3_amended_signature_groups_partition (cat : Catalog)
    (users : List (String × List String))
    (hinj : ∀ p1, p1 ∈ users → ∀ p2, p2 ∈ users → p1.2 ≠ [] → p2.2 ≠ [] →
      roleCombination p1.2 = roleCombination p2.2 → pysort p1.2 = pysort p2.2) :
    ∀ key m, dictGet (aggregate cat users).roleCounts key = some m →
      ∃ p, p ∈ users ∧ p.2 ≠ [] ∧ roleCombination p.2 = key ∧
        ∃ grp,
          dictGet (aggregate cat users).combinationTypes
            (licenseSignature (combinedLicenses cat (pysort p.2))) = some grp ∧
          dictGet grp key = some m ∧
          ∀ sig2 grp2,
            dictGet (aggregate cat users).combinationTypes sig2 = some grp2 →
            (dictGet grp2 key).isSome = true →
            sig2 = licenseSignature (combinedLicenses cat (pysort p.2)) := by
  obtain ⟨hb, hc⟩ := aggregate_groups_inv cat users hinj
  intro key m hk
  obtain ⟨sig, grp, hg, hgk⟩ := hc key m hk
  obtain ⟨-, p0, hp0mem, hp0ne, hp0key, hp0sig⟩ := hb sig grp key m hg hgk
  have hp0key' : roleCombination p0.2 = key := hp0key
  refine ⟨p0, hp0mem, hp0ne, hp0key', grp, ?_, hgk, ?_⟩
  · rw [hp0sig] at hg
    exact hg
  · intro sig2 grp2 hg2 hk2
    obtain ⟨m2, hm2⟩ := Option.isSome_iff_exists.mp hk2
    obtain ⟨-, p2, hp2mem, hp2ne, hp2key, hp2sig⟩ := hb sig2 grp2 key m2 hg2 hm2
    have hps : pysort p2.2 = pysort p0.2 :=
      hinj p2 hp2mem p0 hp0mem hp2ne hp0ne (by
        have := hp2key.trans hp0key.symm
        simpa [combKey] using this)
    rw [hp2sig]
    unfold combSig
    rw [hps]

theorem c3_amended_witness :
    ∃ p, p ∈ [("u", ["RoleA"])] ∧ p.2 ≠ [] ∧
      roleCombination p.2 = roleCombination ["RoleA"] ∧
      ∃ grp,
        dictGet (aggregate sampleCatalog [("u", ["RoleA"])]).combinationTypes
          (licenseSignature (combinedLicenses sampleCatalog (pysort p.2))) = some grp ∧
        dictGet grp (roleCombination ["RoleA"]) = some 1 ∧
        ∀ sig2 grp2,
          dictGet (aggregate sampleCatalog [("u", ["RoleA"])]).combinationTypes sig2 =
            some grp2 →
          (dictGet grp2 (roleCombination ["RoleA"])).isSome = true →
          sig2 = licenseSignature (combinedLicenses sampleCatalog (pysort p.2)) :=
  c3_amended_signature_groups_partition sampleCatalog [("u", ["RoleA"])]
    (fun p1 h1 p2 h2 _ _ _ => by
      have e1 : p1 = ("u", ["RoleA"]) := by simpa using h1
      have e2 : p2 = ("u", ["RoleA"]) := by simpa using h2
      rw [e1, e2])
    (roleCombination ["RoleA"]) 1 (by decide)

/-! ### C8: workbook handle release on the exit paths of extract_roles -/

/-- The exit paths of `extract_roles` (lines 60-211): return with empty
results before opening the workbook (catalog empty, lines 68-70); early
return after opening when no data rows remain (lines 92-94); normal
completion (lines 203-204); and the `except` block that catches any error
raised after the workbook was opened (lines 206-211). -/
inductive ExitPath where
  | catalogEmpty
  | noDataRows
  | normalCompletion
  | exceptionAfterOpen
  deriving DecidableEq, Repr

/-- Whether `load_workbook` (line 80) has executed on the path. -/
def opensWorkbook : ExitPath → Bool
  | ExitPath.catalogEmpty => false
  | ExitPath.noDataRows => true
  | ExitPath.normalCompletion => true
  | ExitPath.exceptionAfterOpen => true

/-- Whether `wb.close()` executes on the path.  The only call is at line
203, just before the normal return; the early return at line 94 and the
`except` block at lines 206-211 return without closing, and no `with`
statement or `finally` clause guards the handle. -/
def closesWorkbook : ExitPath → Bool
  | ExitPath.catalogEmpty => false
  | ExitPath.noDataRows => false
  | ExitPath.normalCompletion => true
  | ExitPath.exceptionAfterOpen => false

/-- C8: the source table handle is NOT released on every exit path: on
the error path (an exception raised after `load_workbook`, caught at line
206) and on the empty-data early return (line 94) the workbook has been
opened but `wb.close()` never runs — only normal completion closes it. -/
theorem c8_workbook_leaked_on_error_paths :
    (opensWorkbook ExitPath.exceptionAfterOpen = true ∧
      closesWorkbook ExitPath.exceptionAfterOpen = false) ∧
    (opensWorkbook ExitPath.noDataRows = true ∧
      closesWorkbook ExitPath.noDataRows = false) ∧
    (∀ p, closesWorkbook p = true ↔ p = ExitPath.normalCompletion) := by
  refine ⟨⟨rfl, rfl⟩, ⟨rfl, rfl⟩, ?_⟩
  intro p
  cases p <;> simp [closesWorkbook]

/-! ### C9: exit status of the command surface -/

/-- Observable outcome of one run of `main` (lines 343-370): the process
exit status, the messages printed with `always=True`, and whether an
output document was written. -/
structure MainResult where
  exitCode : Nat
  messages : List String
  wroteOutput : Bool
  deriving DecidableEq, Repr

/-- `main` (lines 343-370) over an abstract environment (existence of the
two file paths, and the catalog/rows the two sources would yield).  Every
early-error branch ends in a plain `return` (lines 356, 360) and the
module-level call `main()` (line 373) then lets the interpreter exit
normally, so the exit status is 0 on every path: no `sys.exit` call
appears anywhere in the program. -/
def mainRun (excelExists rolesExists : Bool) (cat : Catalog) (df : List Row) :
    MainResult :=
  if excelExists = false then
    { exitCode := 0, messages := ["Error: File not found: <excel_file>"],
      wroteOutput := false }
  else if rolesExists = false then
    { exitCode := 0, messages := ["Error: File not found: <roles_file>"],
      wroteOutput := false }
  else
    let results := extractRoles cat df
    let runMsgs := ["Processing file: <excel_file>", "Using roles from: <roles_file>"] ++
      (if cat = [] then
        ["Error: No roles found in the roles file. Please check the file format."]
      else [])
    if results.1 ≠ [] then
      { exitCode := 0, messages := runMsgs ++ ["Results written to: <output_file>"],
        wroteOutput := true }
    else
      { exitCode := 0, messages := runMsgs ++ ["No matching roles found in the file."],
        wroteOutput := false }

/-- C9 counterexample: with a missing license-report path (and likewise
with an existing pair of paths but an empty catalog) the program prints a
message and returns, and the process exits with status 0 — not the
non-zero status the claim requires. -/
theorem c9_counterexample :
    (mainRun false true sampleCatalog dfCollision).messages ≠ [] ∧
    (mainRun false true sampleCatalog dfCollision).exitCode = 0 ∧
    (mainRun true true [] dfCollision).messages ≠ [] ∧
    (mainRun true true [] dfCollision).exitCode = 0 := by
  decide

/-- C9 amended: when a required file path does not exist or the catalog
yields zero roles, the program prints a message and performs no
processing/produces no output — but it exits with status ZERO (plain
`return`, lines 354-360 and 366-370; no `sys.exit` in the program), not
with a non-zero status. -/
theorem c9_amended_exit_zero_with_message (excelExists rolesExists : Bool)
    (cat : Catalog) (df : List Row)
    (h : excelExists = false ∨ rolesExists = false ∨ cat = []) :
    (mainRun excelExists rolesExists cat df).exitCode = 0 ∧
    (mainRun excelExists rolesExists cat df).messages ≠ [] ∧
    (mainRun excelExists rolesExists cat df).wroteOutput = false := by
  by_cases he : excelExists = false
  · simp [mainRun, he]
  · have he' : excelExists = true := by
      revert he
      cases excelExists <;> simp
    by_cases hr : rolesExists = false
    · simp [mainRun, he', hr]
    · have hr' : rolesExists = true := by
        revert hr
        cases rolesExists <;> simp
      have hcat : cat = [] := by
        rcases h with h | h | h
        · exact absurd h he
        · exact absurd h hr
        · exact h
      subst hcat
      simp [mainRun, he', hr', extractRoles]

theorem c9_amended_witness :
    (mainRun false true sampleCatalog []).exitCode = 0 ∧
    (mainRun false true sampleCatalog []).messages ≠ [] ∧
    (mainRun false true sampleCatalog []).wroteOutput = false :=
  c9_amended_exit_zero_with_message false true sampleCatalog [] (Or.inl rfl)

end LicenseSummary
